import Mathlib

/-!
Shallow embedding of the tabular ML pipeline and OCR helper of the
ndai_highcode repository (notebook src/ndai_high_code_demo.ipynb), together
with proofs of the specified properties.

Repository functions defined in the notebook itself (outlier_removal,
add_did_it_rain, the grid-sweep aggregation, extract_info) are translated
directly from the notebook source.  Library collaborators whose code is not
part of the repository (sklearn Imputer, StandardScaler, train_test_split,
pandas drop_duplicates) are modelled from the spec, as marked on each
definition.  Numeric column values are embedded as rationals; normalized
values, which involve a square root, live in the reals.
-/

namespace NdaiDemo

/-- Error taxonomy of the spec (section 7). -/
inductive PipelineError where
  | invalidInput
  | divisionByZero
  | dimensionMismatch
  | schemaMismatch
deriving DecidableEq, Repr

/-- Mean of a list of rationals, as computed by np.mean (0 on the empty list,
since division by zero yields 0 in ℚ, matching the convention that we only
ever use it on nonempty fold lists). -/
def colMean (xs : List ℚ) : ℚ := xs.sum / xs.length

/-- Population variance of a list of rationals (ddof = 0, the StandardScaler
convention). -/
def colVar (xs : List ℚ) : ℚ :=
  (xs.map (fun x => (x - colMean xs) ^ 2)).sum / xs.length

/-- Modelled from the spec: the fitted state of the sklearn mean Imputer
(library code, not in the repository).  It stores the single statistic, the
mean of the non-missing training values. -/
structure Imputer where
  statistics : ℚ
deriving DecidableEq, Repr

/-- Modelled from the spec: Imputer.fit computes the mean of a designated
numeric column over the non-missing training rows and fails with
InvalidInputError when the column is entirely missing. -/
def Imputer.fit (col : List (Option ℚ)) : Except PipelineError Imputer :=
  let observed := col.filterMap id
  if observed.isEmpty then .error .invalidInput
  else .ok ⟨observed.sum / observed.length⟩

/-- Modelled from the spec: Imputer.transform replaces each missing entry of
the column with the stored training mean, never recomputing it. -/
def Imputer.transform (imp : Imputer) (col : List (Option ℚ)) : List ℚ :=
  col.map (fun x => x.getD imp.statistics)

/-- Modelled from the spec: the fitted state of the StandardScaler (library
code, not in the repository).  It stores the training mean and the training
population variance; the scale (standard deviation) is the square root of
the variance. -/
structure StandardScaler where
  mean : ℚ
  var : ℚ
deriving DecidableEq, Repr

/-- Modelled from the spec: StandardScaler.fit learns the mean and the
variance of the column from the rows it is given (the training rows only). -/
def StandardScaler.fit (xs : List ℚ) : StandardScaler :=
  ⟨colMean xs, colVar xs⟩

/-- The learned standard deviation: square root of the learned variance. -/
noncomputable def StandardScaler.scale (s : StandardScaler) : ℝ :=
  Real.sqrt s.var

/-- Modelled from the spec: StandardScaler.transform maps each value x to
(x - mean) / std and fails with DivisionByZeroError when the learned
standard deviation is zero (equivalently, when the learned variance is). -/
noncomputable def StandardScaler.transform (s : StandardScaler) (xs : List ℚ) :
    Except PipelineError (List ℝ) :=
  if s.var = 0 then .error .divisionByZero
  else .ok (xs.map (fun x : ℚ => ((x : ℝ) - ((s.mean : ℚ) : ℝ)) / s.scale))

/-- A row of the forest-fires table, restricted to the columns the pipeline
computes with: FFMC (outlier threshold), DC (imputed and normalized, hence
possibly missing), rain (source of the engineered indicator) and the target
area. -/
structure Row where
  ffmc : ℚ
  dc : Option ℚ
  rain : ℚ
  area : ℚ
deriving DecidableEq, Repr

/-- Translated from the notebook: outlier_removal builds the Boolean mask
rows_to_remove of the rows whose FFMC value exceeds the threshold and drops
exactly those rows, keeping the others in order. -/
def outlier_removal (dframe : List Row) (threshold : ℚ) : List Row :=
  dframe.filter (fun r => decide (¬ threshold < r.ffmc))

/-- The notebook assignment that writes the imputed DC column back into the
table: every missing DC entry becomes the stored training mean. -/
def imputeDC (imp : Imputer) (df : List Row) : List Row :=
  df.map (fun r => { r with dc := some (r.dc.getD imp.statistics) })

/-- The notebook dropna step restricted to the modelled columns: DC is the
only column that can be missing, so a row survives iff its DC entry is
present. -/
def dropna (df : List Row) : List Row :=
  df.filter (fun r => r.dc.isSome)

/-- The DC column that reaches the StandardScaler after the shared
preparation steps of the notebook (impute DC, dropna, outlier_removal at
threshold 120), for a given fitted imputer. -/
def scalerInput (imp : Imputer) (df : List Row) : List ℚ :=
  (outlier_removal (dropna (imputeDC imp df)) 120).filterMap (fun r => r.dc)

/-- The training-side fitting of the notebook: fit the imputer on the train
DC column, run the shared preparation steps on the training table, and fit
the StandardScaler on the resulting train DC column. -/
def fitPipeline (df : List Row) : Except PipelineError (Imputer × StandardScaler) :=
  match Imputer.fit (df.map (fun r => r.dc)) with
  | .error e => .error e
  | .ok imp => .ok (imp, StandardScaler.fit (scalerInput imp df))

/-- The test-set preparation cell of the notebook, at DC-column granularity:
apply the previously fitted imputer, dropna, outlier_removal at 120, then
the previously fitted StandardScaler; no statistic is recomputed. -/
noncomputable def prepareTest (imp : Imputer) (s : StandardScaler) (df : List Row) :
    Except PipelineError (List ℝ) :=
  s.transform (scalerInput imp df)

/-- Helper for drop_duplicates: keep the elements not seen before, in order,
threading the set of already-kept elements. -/
def dropDupAux {α : Type _} [DecidableEq α] (seen : List α) : List α → List α
  | [] => []
  | a :: l => if a ∈ seen then dropDupAux seen l else a :: dropDupAux (a :: seen) l

/-- Modelled from the spec: pandas drop_duplicates (library code, not in the
repository) removes exact-duplicate rows, keeping the first occurrence of
each row, survivors in their original order. -/
def drop_duplicates {α : Type _} [DecidableEq α] (l : List α) : List α :=
  dropDupAux [] l

/-- A table as seen by add_did_it_rain: its rain column, the values of all
other pre-existing columns, and the optional engineered did_it_rain column
(absent before the step runs). -/
structure RainTable where
  rain : List ℚ
  other : List (List ℚ)
  did_it_rain : Option (List ℚ)
deriving DecidableEq, Repr

/-- Translated from the notebook: add_did_it_rain writes a did_it_rain
column computed by rain.where(rain == 0.0, other = 1), which keeps the rain
value (necessarily 0.0) where the condition holds and puts 1 elsewhere. -/
def add_did_it_rain (t : RainTable) : RainTable :=
  { t with did_it_rain := some (t.rain.map (fun x => if x = 0 then x else 1)) }

/-- Python call semantics of add_did_it_rain: the function mutates the very
object the caller passed (the column assignment is in place) and returns it,
so after the call the caller variable and the result hold the same updated
table.  First component: the caller table after the call; second: the
returned table. -/
def add_did_it_rain_call (t : RainTable) : RainTable × RainTable :=
  let t2 := add_did_it_rain t
  (t2, t2)

/-- Python call semantics of df.drop_duplicates(inplace=True): the caller
table is replaced by the deduplicated table and the call returns None. -/
def drop_duplicates_inplace_call {α : Type _} [DecidableEq α] (t : List α) :
    List α × Option (List α) :=
  (drop_duplicates t, none)

/-- Python call semantics of outlier_removal: dframe.drop without inplace
returns a new table, so the caller table is unchanged and the result is the
filtered table. -/
def outlier_removal_call (t : List Row) (threshold : ℚ) : List Row × List Row :=
  (t, outlier_removal t threshold)

/-- A fixed linear congruential step, the deterministic pseudo-random source
of the modelled splitter. -/
def lcg (s : ℕ) : ℕ := (1103515245 * s + 12345) % 2147483648

/-- Fuel-indexed Fisher-Yates shuffle driven by the lcg stream: repeatedly
pick the element at the pseudo-random index and recurse on the rest. -/
def shuffleFuel {α : Type _} : ℕ → ℕ → List α → List α
  | 0, _, _ => []
  | _ + 1, _, [] => []
  | fuel + 1, s, a :: l =>
      let i := lcg s % (a :: l).length
      (a :: l).get ⟨i, Nat.mod_lt _ (Nat.succ_pos _)⟩ ::
        shuffleFuel fuel (lcg s) ((a :: l).eraseIdx i)

/-- Deterministic shuffle of a list from a seed. -/
def shuffle {α : Type _} (seed : ℕ) (l : List α) : List α :=
  shuffleFuel l.length seed l

/-- Rounding to the nearest integer (the rounding policy the spec names for
the test-set size). -/
def roundNearest (q : ℚ) : ℤ := ⌊q + 1 / 2⌋

/-- Modelled from the spec: train_test_split (library code, not in the
repository) deterministically shuffles the rows from the seed and splits off
the nearest-integer fraction as the test set; the pair is (train, test), the
order the notebook destructures. -/
def train_test_split {α : Type _} (df : List α) (test_size : ℚ) (random_state : ℕ) :
    List α × List α :=
  let k := (roundNearest (test_size * df.length)).toNat
  let perm := shuffle random_state df
  (perm.drop k, perm.take k)

/-- The per-tuple output of cross_validate under the two scorings the
notebook requests: the per-fold r2 scores and the per-fold negated
mean-squared errors. -/
structure CVResult where
  test_r2 : List ℚ
  test_neg_mean_squared_error : List ℚ
deriving DecidableEq, Repr

/-- Translated from the notebook grid-sweep cell: for every tree count and
every depth in the two grids, run cross-validation (abstracted as a stub
oracle from the hyperparameter tuple to fold scores), record the mean r2 and
RMSE = sqrt(-1 * mean(test_neg_mean_squared_error)), and append the entry to
the results. -/
noncomputable def gridSweep (tree_grid depth_grid : List ℕ)
    (cross_validate : ℕ → ℕ → CVResult) : List ((ℕ × ℕ) × (ℚ × ℝ)) :=
  tree_grid.foldl
    (fun results n_trees =>
      depth_grid.foldl
        (fun results2 depth =>
          let result := cross_validate n_trees depth
          let r2 := colMean result.test_r2
          let rmse : ℝ :=
            Real.sqrt (((-1 : ℚ) * colMean result.test_neg_mean_squared_error : ℚ) : ℝ)
          results2 ++ [((n_trees, depth), (r2, rmse))])
        results)
    []

/-- The synthetic cross-validation oracle of the spec test: fold MSEs
[1, 4, 9, 16, 25], reported negated as cross_validate does. -/
def stubCV : ℕ → ℕ → CVResult :=
  fun _ _ => ⟨[0, 0, 0, 0, 0], [-1, -4, -9, -16, -25]⟩

/-- A recognized word of the OCR response: its text and bounding box. -/
structure WordInfo where
  text : String
  boundingBox : String
deriving DecidableEq, Repr

/-- A line of the OCR response: its list of words. -/
structure OcrLine where
  words : List WordInfo
deriving DecidableEq, Repr

/-- A region of the OCR response: its list of lines. -/
structure OcrRegion where
  lines : List OcrLine
deriving DecidableEq, Repr

/-- The OCR analysis structure: its list of regions. -/
structure OcrAnalysis where
  regions : List OcrRegion
deriving DecidableEq, Repr

/-- Translated from the notebook: extract_info collects the per-region line
lists, then appends every word of every line of every region, in traversal
order, to an initially empty accumulator. -/
def extract_info (analysis : OcrAnalysis) : List WordInfo :=
  let line_infos := analysis.regions.map (fun region => region.lines)
  line_infos.foldl
    (fun word_infos line =>
      line.foldl
        (fun acc word_metadata =>
          word_metadata.words.foldl (fun acc2 word_info => acc2 ++ [word_info]) acc)
        word_infos)
    []

end NdaiDemo

section Lemmas

namespace NdaiDemo

theorem dropDupAux_sublist {α : Type _} [DecidableEq α] (seen : List α) (l : List α) :
    List.Sublist (dropDupAux seen l) l := by
  induction l generalizing seen with
  | nil => simp [dropDupAux]
  | cons a l ih =>
      by_cases h : a ∈ seen
      · simp only [dropDupAux, if_pos h]
        exact (ih seen).cons a
      · simp only [dropDupAux, if_neg h]
        exact (ih (a :: seen)).cons₂ a

theorem dropDupAux_not_mem_seen {α : Type _} [DecidableEq α] (l : List α) :
    ∀ (seen : List α) (x : α), x ∈ dropDupAux seen l → x ∉ seen := by
  induction l with
  | nil => intro seen x hx; simp [dropDupAux] at hx
  | cons a l ih =>
      intro seen x hx
      by_cases h : a ∈ seen
      · simp only [dropDupAux, if_pos h] at hx
        exact ih seen x hx
      · simp only [dropDupAux, if_neg h, List.mem_cons] at hx
        rcases hx with hx | hx
        · simpa [hx] using h
        · intro hmem
          exact ih (a :: seen) x hx (List.mem_cons_of_mem a hmem)

theorem dropDupAux_nodup {α : Type _} [DecidableEq α] (seen : List α) (l : List α) :
    (dropDupAux seen l).Nodup := by
  induction l generalizing seen with
  | nil => simp [dropDupAux]
  | cons a l ih =>
      by_cases h : a ∈ seen
      · simpa only [dropDupAux, if_pos h] using ih seen
      · simp only [dropDupAux, if_neg h, List.nodup_cons]
        refine ⟨fun hmem => ?_, ih (a :: seen)⟩
        exact dropDupAux_not_mem_seen l (a :: seen) a hmem (List.mem_cons_self a seen)

theorem foldl_append_one {γ : Type _} (l : List γ) :
    ∀ acc : List γ, l.foldl (fun a x => a ++ [x]) acc = acc ++ l := by
  induction l with
  | nil => intro acc; simp
  | cons b l ih => intro acc; simp [ih]

theorem foldl_append_flatMap {β γ : Type _} (f : β → List γ) (l : List β) :
    ∀ acc : List γ, l.foldl (fun a x => a ++ f x) acc = acc ++ l.flatMap f := by
  induction l with
  | nil => intro acc; simp
  | cons b l ih => intro acc; simp [ih]

theorem regions_foldl_eq (line_infos : List (List OcrLine)) (acc : List WordInfo) :
    line_infos.foldl
        (fun word_infos line =>
          line.foldl
            (fun acc2 word_metadata =>
              word_metadata.words.foldl
                (fun acc3 word_info => acc3 ++ [word_info]) acc2)
            word_infos)
        acc
      = acc ++
          line_infos.flatMap
            (fun line => line.flatMap (fun word_metadata => word_metadata.words)) := by
  simp only [foldl_append_one, foldl_append_flatMap]

theorem colMean_map_neg (l : List ℚ) : colMean (l.map (fun m => -m)) = -colMean l := by
  simp only [colMean, List.length_map, Eq.symm (List.sum_neg l)]
  rw [neg_div]

theorem gridSweep_eq (tree_grid depth_grid : List ℕ) (cross_validate : ℕ → ℕ → CVResult) :
    gridSweep tree_grid depth_grid cross_validate =
      tree_grid.flatMap (fun n_trees =>
        depth_grid.map (fun depth =>
          ((n_trees, depth),
            (colMean (cross_validate n_trees depth).test_r2,
              Real.sqrt
                (((-1 : ℚ) *
                    colMean (cross_validate n_trees depth).test_neg_mean_squared_error
                  : ℚ) : ℝ))))) := by
  unfold gridSweep
  simp only [foldl_append_flatMap, List.nil_append]
  congr 1
  funext n_trees
  exact Eq.symm (List.map_eq_flatMap _ depth_grid)

theorem colVar_nonneg (xs : List ℚ) : 0 ≤ colVar xs := by
  unfold colVar
  apply div_nonneg
  · apply List.sum_nonneg
    intro x hx
    obtain ⟨y, _, rfl⟩ := List.mem_map.mp hx
    positivity
  · positivity

theorem scale_eq_zero_iff (s : StandardScaler) (h : 0 ≤ s.var) :
    s.scale = 0 ↔ s.var = 0 := by
  unfold StandardScaler.scale
  rw [Real.sqrt_eq_zero']
  constructor
  · intro hle
    have : s.var ≤ 0 := by exact_mod_cast hle
    linarith
  · intro hv
    rw [hv]
    exact_mod_cast le_refl (0 : ℚ)

theorem imputer_fit_eq_of_ne_nil (col : List (Option ℚ)) (h : col.filterMap id ≠ []) :
    Imputer.fit col = .ok ⟨(col.filterMap id).sum / ((col.filterMap id).length : ℚ)⟩ := by
  have hb : (col.filterMap id).isEmpty = false := by
    simpa [List.isEmpty_iff] using h
  simp [Imputer.fit, hb]

theorem fitPipeline_eq (df : List Row) (imp : Imputer)
    (h : Imputer.fit (df.map (fun r => r.dc)) = .ok imp) :
    fitPipeline df = .ok (imp, StandardScaler.fit (scalerInput imp df)) := by
  unfold fitPipeline
  rw [h]

theorem imputer_fit_ok_statistics (col : List (Option ℚ)) (imp : Imputer)
    (h : Imputer.fit col = .ok imp) :
    imp.statistics = (col.filterMap id).sum / ((col.filterMap id).length : ℚ) := by
  simp only [Imputer.fit] at h
  by_cases hb : (col.filterMap id).isEmpty
  · simp [hb] at h
  · simp [hb] at h
    rw [← h]

theorem fitPipeline_inv (df : List Row) (imp : Imputer) (s : StandardScaler)
    (h : fitPipeline df = .ok (imp, s)) :
    Imputer.fit (df.map (fun r => r.dc)) = .ok imp ∧
    s = StandardScaler.fit (scalerInput imp df) := by
  unfold fitPipeline at h
  cases hI : Imputer.fit (df.map (fun r => r.dc)) with
  | error e => rw [hI] at h; simp at h
  | ok imp0 =>
      rw [hI] at h
      simp only [Except.ok.injEq, Prod.mk.injEq] at h
      obtain ⟨h1, h2⟩ := h
      subst h1
      exact ⟨rfl, h2.symm⟩

theorem get_cons_eraseIdx_perm {α : Type _} :
    ∀ (l : List α) (i : ℕ) (h : i < l.length),
      List.Perm (l.get ⟨i, h⟩ :: l.eraseIdx i) l := by
  intro l
  induction l with
  | nil => intro i h; simp at h
  | cons a l ih =>
      intro i h
      cases i with
      | zero => exact List.Perm.refl _
      | succ i =>
          have hi : i < l.length := by simpa using h
          exact List.Perm.trans
            (List.Perm.swap a (l.get ⟨i, hi⟩) (l.eraseIdx i))
            ((ih i hi).cons a)

theorem shuffleFuel_perm {α : Type _} :
    ∀ (fuel s : ℕ) (l : List α), l.length ≤ fuel →
      List.Perm (shuffleFuel fuel s l) l := by
  intro fuel
  induction fuel with
  | zero =>
      intro s l hl
      have hnil : l = [] := List.length_eq_zero.mp (Nat.le_zero.mp hl)
      subst hnil
      simp [shuffleFuel]
  | succ fuel ih =>
      intro s l hl
      cases l with
      | nil => simp [shuffleFuel]
      | cons a t =>
          have hm : lcg s % (a :: t).length < (a :: t).length :=
            Nat.mod_lt _ (Nat.succ_pos _)
          have hlen : ((a :: t).eraseIdx (lcg s % (a :: t).length)).length ≤ fuel := by
            rw [List.length_eraseIdx]
            simp only [if_pos hm]
            simp only [List.length_cons] at hl ⊢
            omega
          simp only [shuffleFuel]
          exact List.Perm.trans
            (List.Perm.cons _ (ih (lcg s) _ hlen))
            (get_cons_eraseIdx_perm (a :: t) _ hm)

theorem shuffle_perm {α : Type _} (seed : ℕ) (l : List α) :
    List.Perm (shuffle seed l) l :=
  shuffleFuel_perm l.length seed l le_rfl

theorem roundNearest_nonneg (q : ℚ) (h : 0 ≤ q) : 0 ≤ roundNearest q := by
  unfold roundNearest
  rw [Int.le_floor]
  push_cast
  linarith

theorem roundNearest_le_nat (q : ℚ) (n : ℕ) (h : q ≤ n) : roundNearest q ≤ n := by
  unfold roundNearest
  have hlt : ⌊q + 1 / 2⌋ < (n : ℤ) + 1 := by
    rw [Int.floor_lt]
    push_cast
    linarith
  omega

end NdaiDemo

end Lemmas

section Claims

namespace NdaiDemo

/-- C6: for every Table and threshold, outlier filtering on the FFMC column
returns a Table in which no row has an FFMC value strictly greater than the
threshold, and every row whose FFMC value is at most the threshold
(including exactly equal) is retained. -/
theorem outlier_removal_threshold (df : List Row) (threshold : ℚ) :
    (∀ r ∈ outlier_removal df threshold, ¬ r.ffmc > threshold) ∧
    (∀ r ∈ df, r.ffmc ≤ threshold → r ∈ outlier_removal df threshold) := by
  constructor
  · intro r hr
    have := List.of_mem_filter hr
    simpa using this
  · intro r hr hle
    refine List.mem_filter.mpr ⟨hr, ?_⟩
    simpa using not_lt.mpr hle

/-- Witness for C6 at a concrete table: the row whose FFMC value equals the
threshold is retained by the filter. -/
theorem outlier_removal_threshold_witness :
    (⟨120, some 1, 0, 0⟩ : Row) ∈
      outlier_removal [⟨120, some 1, 0, 0⟩, ⟨121, some 2, 0, 0⟩] 120 :=
  (outlier_removal_threshold [⟨120, some 1, 0, 0⟩, ⟨121, some 2, 0, 0⟩] 120).2
    ⟨120, some 1, 0, 0⟩ (by decide) (by decide)

/-- C7: deduplication returns a Table with no two identical rows, whose rows
form a subset of the input rows, with survivors kept in their original
relative order (a sublist of the input). -/
theorem drop_duplicates_nodup_sublist (T : List Row) :
    (drop_duplicates T).Nodup ∧
    List.Sublist (drop_duplicates T) T ∧
    (∀ r ∈ drop_duplicates T, r ∈ T) := by
  refine ⟨dropDupAux_nodup [] T, dropDupAux_sublist [] T, ?_⟩
  intro r hr
  exact (dropDupAux_sublist [] T).subset hr

/-- Witness for C7 at a concrete table with a duplicate row. -/
theorem drop_duplicates_nodup_sublist_witness :
    drop_duplicates [(⟨1, some 1, 0, 0⟩ : Row), ⟨2, some 2, 0, 0⟩, ⟨1, some 1, 0, 0⟩] =
      [⟨1, some 1, 0, 0⟩, ⟨2, some 2, 0, 0⟩] ∧
    (⟨2, some 2, 0, 0⟩ : Row) ∈
      [(⟨1, some 1, 0, 0⟩ : Row), ⟨2, some 2, 0, 0⟩, ⟨1, some 1, 0, 0⟩] := by
  refine ⟨by decide, ?_⟩
  exact (drop_duplicates_nodup_sublist
    [⟨1, some 1, 0, 0⟩, ⟨2, some 2, 0, 0⟩, ⟨1, some 1, 0, 0⟩]).2.2
    ⟨2, some 2, 0, 0⟩ (by decide)

/-- C9: add_did_it_rain adds a did_it_rain column whose value in each row is
0 when that row has rain value 0.0 and 1 otherwise, and leaves the values of
all pre-existing columns unchanged. -/
theorem add_did_it_rain_spec (t : RainTable) :
    (add_did_it_rain t).rain = t.rain ∧
    (add_did_it_rain t).other = t.other ∧
    (add_did_it_rain t).did_it_rain =
      some (t.rain.map (fun x => if x = 0 then (0 : ℚ) else 1)) := by
  refine ⟨rfl, rfl, ?_⟩
  simp only [add_did_it_rain, Option.some.injEq]
  apply List.map_congr_left
  intro a _
  by_cases h : a = 0
  · simp [h]
  · simp [h]

/-- C8 counterexample: the claim that every cleaning step leaves the caller
table unchanged fails on the notebook code at a concrete input: the
add_did_it_rain column assignment and drop_duplicates(inplace=True) both
update the very table the caller passed. -/
theorem preprocessor_inplace_counterexample :
    (add_did_it_rain_call ⟨[0], [], none⟩).1 ≠ (⟨[0], [], none⟩ : RainTable) ∧
    (drop_duplicates_inplace_call
        [(⟨1, some 1, 0, 0⟩ : Row), ⟨1, some 1, 0, 0⟩]).1 ≠
      [(⟨1, some 1, 0, 0⟩ : Row), ⟨1, some 1, 0, 0⟩] := by
  constructor
  · intro h
    simpa [add_did_it_rain_call, add_did_it_rain] using congrArg RainTable.did_it_rain h
  · intro h
    have := congrArg List.length h
    simp [drop_duplicates_inplace_call, drop_duplicates, dropDupAux] at this

/-- C8 amended: not every step is mutation-free: the steps the notebook runs
in place (drop_duplicates with inplace=True, dropna, the DC column
assignments, add_did_it_rain) update the caller table to the transformed
state, while outlier_removal returns a new Table and leaves the caller
table unchanged. -/
theorem preprocessor_inplace_amended :
    (∀ (t : List Row) (threshold : ℚ), (outlier_removal_call t threshold).1 = t) ∧
    (∀ t : RainTable, t.did_it_rain = none → (add_did_it_rain_call t).1 ≠ t) ∧
    (∀ l : List Row, ¬ l.Nodup → (drop_duplicates_inplace_call l).1 ≠ l) := by
  refine ⟨fun t threshold => rfl, ?_, ?_⟩
  · intro t ht h
    have := congrArg RainTable.did_it_rain h
    simp [add_did_it_rain_call, add_did_it_rain, ht] at this
  · intro l hl h
    exact hl (h ▸ dropDupAux_nodup [] l)

/-- Witness for the amended C8 at concrete tables. -/
theorem preprocessor_inplace_amended_witness :
    (outlier_removal_call [(⟨1, some 1, 0, 0⟩ : Row)] 120).1 = [⟨1, some 1, 0, 0⟩] ∧
    (add_did_it_rain_call ⟨[0, 2], [], none⟩).1 ≠ (⟨[0, 2], [], none⟩ : RainTable) ∧
    (drop_duplicates_inplace_call
        [(⟨1, some 1, 0, 0⟩ : Row), ⟨1, some 1, 0, 0⟩]).1 ≠
      [(⟨1, some 1, 0, 0⟩ : Row), ⟨1, some 1, 0, 0⟩] :=
  ⟨preprocessor_inplace_amended.1 [⟨1, some 1, 0, 0⟩] 120,
   preprocessor_inplace_amended.2.1 ⟨[0, 2], [], none⟩ rfl,
   preprocessor_inplace_amended.2.2 [⟨1, some 1, 0, 0⟩, ⟨1, some 1, 0, 0⟩] (by decide)⟩

/-- C10: extract_info returns exactly the concatenation of every word entry,
traversing the regions in order, the lines within each region in order and
the words within each line in order; being a pure function of its argument,
it leaves the input analysis unmodified. -/
theorem extract_info_spec (analysis : OcrAnalysis) :
    extract_info analysis =
      analysis.regions.flatMap
        (fun region => region.lines.flatMap (fun line => line.words)) := by
  unfold extract_info
  rw [regions_foldl_eq]
  simp [List.flatMap_map]

/-- C2: for every hyperparameter tuple recorded by the grid sweep, the
recorded RMSE equals the square root of the mean of the per-fold MSEs, not
the mean of the per-fold square roots; in particular for fold MSEs
[1, 4, 9, 16, 25] the recorded value is sqrt 11, which differs from 3. -/
theorem grid_sweep_rmse :
    (∀ (tree_grid depth_grid : List ℕ) (cross_validate : ℕ → ℕ → CVResult)
        (k : ℕ × ℕ) (v : ℚ × ℝ),
        (k, v) ∈ gridSweep tree_grid depth_grid cross_validate →
        v.2 = Real.sqrt
          ((colMean
              ((cross_validate k.1 k.2).test_neg_mean_squared_error.map (fun m => -m))
            : ℚ) : ℝ)) ∧
    gridSweep [100] [1] stubCV = [((100, 1), (0, Real.sqrt 11))] ∧
    Real.sqrt 11 ≠ 3 := by
  refine ⟨?_, ?_, ?_⟩
  · intro tree_grid depth_grid cross_validate k v hmem
    rw [gridSweep_eq] at hmem
    simp only [List.mem_flatMap, List.mem_map] at hmem
    obtain ⟨n, hn, d, hd, heq⟩ := hmem
    rw [Prod.mk.injEq] at heq
    obtain ⟨hk, hv⟩ := heq
    subst hk
    subst hv
    dsimp only
    rw [colMean_map_neg]
    congr 1
    push_cast
    ring
  · rw [gridSweep_eq]
    have h1 : colMean (stubCV 100 1).test_r2 = 0 := by
      norm_num [stubCV, colMean]
    have h2 : ((-1 : ℚ) * colMean (stubCV 100 1).test_neg_mean_squared_error : ℚ) = 11 := by
      norm_num [stubCV, colMean]
    simp only [List.flatMap_cons, List.flatMap_nil, List.map_cons, List.map_nil,
      List.append_nil, h1, h2]
    norm_num
  · intro h
    have h2 := Real.sq_sqrt (show (0 : ℝ) ≤ 11 by norm_num)
    rw [h] at h2
    norm_num at h2

/-- Witness for C2 at the synthetic fold MSEs [1, 4, 9, 16, 25] and a
one-tuple grid: the recorded RMSE equals the square root of the mean of the
fold MSEs. -/
theorem grid_sweep_rmse_witness :
    (Real.sqrt 11 : ℝ) =
      Real.sqrt
        ((colMean
            ((stubCV 100 1).test_neg_mean_squared_error.map (fun m => -m))
          : ℚ) : ℝ) := by
  have hmem : (((100, 1) : ℕ × ℕ), ((0 : ℚ), Real.sqrt 11)) ∈
      gridSweep [100] [1] stubCV := by
    rw [grid_sweep_rmse.2.1]
    exact List.mem_singleton.mpr rfl
  exact grid_sweep_rmse.1 [100] [1] stubCV (100, 1) (0, Real.sqrt 11) hmem

/-- C4: normalization learns the mean and the standard deviation of the
designated column from the rows it is fitted on (the training rows only),
its transform maps each value x to (x - mean) / std, and it fails with
DivisionByZeroError when the learned standard deviation is zero. -/
theorem standard_scaler_spec (xs ys : List ℚ) :
    (StandardScaler.fit xs).mean = colMean xs ∧
    (StandardScaler.fit xs).var = colVar xs ∧
    ((StandardScaler.fit xs).scale = 0 →
      (StandardScaler.fit xs).transform ys = .error .divisionByZero) ∧
    ((StandardScaler.fit xs).scale ≠ 0 →
      (StandardScaler.fit xs).transform ys =
        .ok (ys.map (fun x : ℚ =>
          ((x : ℝ) - ((colMean xs : ℚ) : ℝ)) / (StandardScaler.fit xs).scale))) := by
  have hvar : (StandardScaler.fit xs).var = colVar xs := rfl
  have hnn : 0 ≤ (StandardScaler.fit xs).var := by
    rw [hvar]; exact colVar_nonneg xs
  refine ⟨rfl, rfl, ?_, ?_⟩
  · intro h
    have hv : (StandardScaler.fit xs).var = 0 :=
      (scale_eq_zero_iff _ hnn).mp h
    simp [StandardScaler.transform, hv]
  · intro h
    have hv : (StandardScaler.fit xs).var ≠ 0 := fun h0 =>
      h ((scale_eq_zero_iff _ hnn).mpr h0)
    unfold StandardScaler.transform
    rw [if_neg hv]
    rfl

/-- Witness for C4: fitting on [0, 2] yields nonzero deviation and the
transform succeeds with the learned statistics; fitting on the constant
column [5, 5] yields zero deviation and the transform fails with
DivisionByZeroError. -/
theorem standard_scaler_spec_witness :
    (StandardScaler.fit [0, 2]).transform [3] =
      .ok (([3] : List ℚ).map (fun x : ℚ =>
        ((x : ℝ) - ((colMean [0, 2] : ℚ) : ℝ)) / (StandardScaler.fit [0, 2]).scale)) ∧
    (StandardScaler.fit [5, 5]).transform [3] = .error .divisionByZero := by
  constructor
  · apply (standard_scaler_spec [0, 2] [3]).2.2.2
    have h : colVar [0, 2] = 1 := by norm_num [colVar, colMean]
    simp [StandardScaler.scale, StandardScaler.fit, h]
  · apply (standard_scaler_spec [5, 5] [3]).2.2.1
    have h : colVar [5, 5] = 0 := by norm_num [colVar, colMean]
    simp [StandardScaler.scale, StandardScaler.fit, h]

/-- C5: missing-value imputation computes the mean of the designated column
over the non-missing rows it is fitted on, and fails with InvalidInputError
when that column is entirely missing. -/
theorem imputer_fit_spec (col : List (Option ℚ)) :
    (col.filterMap id ≠ [] →
      Imputer.fit col =
        .ok ⟨(col.filterMap id).sum / ((col.filterMap id).length : ℚ)⟩) ∧
    ((∀ x ∈ col, x = none) → Imputer.fit col = .error .invalidInput) := by
  constructor
  · intro h
    have hb : (col.filterMap id).isEmpty = false := by
      simpa [List.isEmpty_iff] using h
    simp [Imputer.fit, hb]
  · intro h
    have hnil : col.filterMap id = [] := by
      rw [List.filterMap_eq_nil_iff]
      intro a ha
      simpa using h a ha
    simp [Imputer.fit, hnil]

/-- Witness for C5: a column with two observed values and one missing entry
fits to their mean; an entirely missing column fails with
InvalidInputError. -/
theorem imputer_fit_spec_witness :
    Imputer.fit [some 1, none, some 3] =
      .ok ⟨(([some 1, none, some 3] : List (Option ℚ)).filterMap id).sum /
        ((([some 1, none, some 3] : List (Option ℚ)).filterMap id).length : ℚ)⟩ ∧
    Imputer.fit ([none] : List (Option ℚ)) = .error .invalidInput :=
  ⟨(imputer_fit_spec [some 1, none, some 3]).1 (by decide),
   (imputer_fit_spec [none]).2 (by decide)⟩

/-- C1: the fitted statistics (the imputation mean of the DC column and the
normalization mean and variance of the DC column) are expressions of the
training table alone, the value imputed into any test table at a missing
position is the stored training mean, and the transform applied to any two
test tables is the same fixed map built from those training statistics, so
the statistics used to transform the test partition are independent of its
contents. -/
theorem no_leakage (df : List Row) (imp : Imputer) (s : StandardScaler)
    (t1 t2 : List Row) (hfit : fitPipeline df = .ok (imp, s)) :
    imp.statistics =
      ((df.map (fun r => r.dc)).filterMap id).sum /
        (((df.map (fun r => r.dc)).filterMap id).length : ℚ) ∧
    s.mean = colMean (scalerInput imp df) ∧
    s.var = colVar (scalerInput imp df) ∧
    (∀ (i : ℕ) (r : Row), t1[i]? = some r → r.dc = none →
      (imputeDC imp t1)[i]? = some { r with dc := some imp.statistics }) ∧
    (s.var ≠ 0 →
      prepareTest imp s t1 =
        .ok ((scalerInput imp t1).map (fun x : ℚ =>
          ((x : ℝ) - ((s.mean : ℚ) : ℝ)) / s.scale)) ∧
      prepareTest imp s t2 =
        .ok ((scalerInput imp t2).map (fun x : ℚ =>
          ((x : ℝ) - ((s.mean : ℚ) : ℝ)) / s.scale))) := by
  obtain ⟨hI, hs⟩ := fitPipeline_inv df imp s hfit
  refine ⟨imputer_fit_ok_statistics _ imp hI, ?_, ?_, ?_, ?_⟩
  · rw [hs]; rfl
  · rw [hs]; rfl
  · intro i r hir hdc
    unfold imputeDC
    rw [List.getElem?_map, hir]
    simp [hdc]
  · intro hv
    constructor <;>
      · unfold prepareTest StandardScaler.transform
        rw [if_neg hv]

/-- Witness for C1: fitting on a training table whose DC column is
[2, missing, 4] stores the training mean 3; a test row with missing DC is
imputed with that training value 3 (not with anything computed from the
test table), and the test transform is the fixed map built from the
training statistics. -/
theorem no_leakage_witness :
    (imputeDC ⟨3⟩ [⟨50, none, 0, 0⟩])[0]? = some ⟨50, some 3, 0, 0⟩ ∧
    prepareTest ⟨3⟩ ⟨3, 2 / 3⟩ [⟨50, none, 0, 0⟩] =
      .ok ((scalerInput ⟨3⟩ [⟨50, none, 0, 0⟩]).map (fun x : ℚ =>
        ((x : ℝ) - (((⟨3, 2 / 3⟩ : StandardScaler).mean : ℚ) : ℝ)) /
          (⟨3, 2 / 3⟩ : StandardScaler).scale)) := by
  have h1 : Imputer.fit
      ([(⟨90, some 2, 0, 0⟩ : Row), ⟨90, none, 0, 0⟩, ⟨90, some 4, 0, 0⟩].map
        (fun r => r.dc)) = .ok ⟨3⟩ := by
    rw [imputer_fit_eq_of_ne_nil _ (by decide)]
    rw [show List.filterMap id
        ([(⟨90, some 2, 0, 0⟩ : Row), ⟨90, none, 0, 0⟩, ⟨90, some 4, 0, 0⟩].map
          (fun r => r.dc)) = ([2, 4] : List ℚ) from rfl]
    norm_num [Imputer.mk.injEq]
  have hfit : fitPipeline [⟨90, some 2, 0, 0⟩, ⟨90, none, 0, 0⟩, ⟨90, some 4, 0, 0⟩] =
      .ok (⟨3⟩, ⟨3, 2 / 3⟩) := by
    rw [fitPipeline_eq _ _ h1]
    rw [show scalerInput ⟨3⟩ [⟨90, some 2, 0, 0⟩, ⟨90, none, 0, 0⟩, ⟨90, some 4, 0, 0⟩] =
        ([2, 3, 4] : List ℚ) from rfl]
    rw [show StandardScaler.fit [2, 3, 4] = ⟨3, 2 / 3⟩ from by
      rw [StandardScaler.fit]
      norm_num [colMean, colVar, StandardScaler.mk.injEq]]
  have h := no_leakage [⟨90, some 2, 0, 0⟩, ⟨90, none, 0, 0⟩, ⟨90, some 4, 0, 0⟩]
    ⟨3⟩ ⟨3, 2 / 3⟩ [⟨50, none, 0, 0⟩] [⟨50, none, 0, 0⟩] hfit
  refine ⟨h.2.2.2.1 0 ⟨50, none, 0, 0⟩ rfl rfl, (h.2.2.2.2 ?_).1⟩
  show (2 : ℚ) / 3 ≠ 0
  norm_num

/-- C3: for every input Table, holdout fraction in [0, 1] and seed, the
splitter returns two Tables that partition the input rows (their
concatenation is a permutation of the input, and on duplicate-free input
they are disjoint), the test row count is the fraction of the total row
count rounded to the nearest integer, and repeated calls with the same
arguments return the identical partition. -/
theorem train_test_split_spec {α : Type _} (df : List α) (test_size : ℚ) (seed : ℕ)
    (h0 : 0 ≤ test_size) (h1 : test_size ≤ 1) :
    List.Perm
      ((train_test_split df test_size seed).2 ++ (train_test_split df test_size seed).1)
      df ∧
    (((train_test_split df test_size seed).2.length : ℤ) =
      roundNearest (test_size * df.length)) ∧
    (df.Nodup →
      (train_test_split df test_size seed).2.Disjoint
        (train_test_split df test_size seed).1) ∧
    train_test_split df test_size seed = train_test_split df test_size seed := by
  have hperm : List.Perm (shuffle seed df) df := shuffle_perm seed df
  have hlen : (shuffle seed df).length = df.length := hperm.length_eq
  have hr0 : 0 ≤ roundNearest (test_size * df.length) :=
    roundNearest_nonneg _ (mul_nonneg h0 (Nat.cast_nonneg _))
  have hrn : roundNearest (test_size * df.length) ≤ df.length := by
    apply roundNearest_le_nat
    calc test_size * (df.length : ℚ) ≤ 1 * df.length :=
          mul_le_mul_of_nonneg_right h1 (Nat.cast_nonneg _)
      _ = df.length := one_mul _
  have hk : (roundNearest (test_size * df.length)).toNat ≤ df.length :=
    Int.toNat_le.mpr hrn
  refine ⟨?_, ?_, ?_, rfl⟩
  · show List.Perm ((shuffle seed df).take _ ++ (shuffle seed df).drop _) df
    rw [List.take_append_drop]
    exact hperm
  · show (((shuffle seed df).take _).length : ℤ) = _
    rw [List.length_take, hlen, min_eq_left hk]
    exact Int.toNat_of_nonneg hr0
  · intro hnd
    have hns : (shuffle seed df).Nodup := hperm.nodup_iff.mpr hnd
    exact List.disjoint_take_drop hns le_rfl

/-- Witness for C3 on the table [0, 1, 2, 3, 4] with fraction 2/5 and seed
42: the two parts recombine to a permutation of the input and the test part
has the rounded size. -/
theorem train_test_split_spec_witness :
    List.Perm
      ((train_test_split [0, 1, 2, 3, 4] (2 / 5) 42).2 ++
        (train_test_split [0, 1, 2, 3, 4] (2 / 5) 42).1)
      [0, 1, 2, 3, 4] ∧
    (((train_test_split [0, 1, 2, 3, 4] (2 / 5) 42).2.length : ℤ) =
      roundNearest ((2 / 5) * (([0, 1, 2, 3, 4] : List ℕ).length : ℚ))) :=
  ⟨(train_test_split_spec [0, 1, 2, 3, 4] (2 / 5) 42 (by norm_num) (by norm_num)).1,
   (train_test_split_spec [0, 1, 2, 3, 4] (2 / 5) 42 (by norm_num) (by norm_num)).2.1⟩

end NdaiDemo

end Claims
